import Mathlib

/-!
Verification of the gulpfile build pipeline of the csde-components-boilerplate
repository (src/gulpfile.js).

The embedding models the pure content-producing logic directly (string
concatenation, the scss file filter, the slice that strips the underscore and
extension, glob matching for the zip entries) and models the effectful tasks
as explicit traces: each gulp task is a function from an environment (the
observed directory listing, file contents, and the behaviour of the external
collaborators sass, UglifyJS and the components validator) to a `TaskResult`
carrying the invoked task names, the performed effects (file writes, log
lines, zip creation) and the optionally thrown error message.

Paths are modelled relative to the project root; in the source,
`path.join(__dirname, './components/styles')` with `__dirname` being the
project root yields that root-relative path. JS string lengths and slices
are modelled over code points (all file names involved are ASCII, where the
two notions coincide with the UTF-16 units used by JS).
-/

namespace Gulpfile

/-- Concatenation of a list of strings, in order. -/
def strJoin : List String → String
  | [] => ""
  | s :: l => s ++ strJoin l

/-- Clamping of a JS slice index to the range 0..n, with a negative index
counted from the end, as the JS `String.prototype.slice` does. -/
def jsClampIdx (n : Nat) (i : Int) : Nat :=
  if i < 0 then (max ((n : Int) + i) 0).toNat else min i.toNat n

/-- JS `s.slice(b, e)`: the characters of `s` from the clamped index `b`
(inclusive) to the clamped index `e` (exclusive). -/
def jsSlice (s : String) (b e : Int) : String :=
  String.mk ((s.toList.take (jsClampIdx s.toList.length e)).drop
    (jsClampIdx s.toList.length b))

/-- JS `s.startsWith(p)`: the first characters of `s` are exactly `p`. -/
def jsStartsWith (s p : String) : Bool :=
  s.toList.take p.toList.length == p.toList

/-- JS `s.endsWith(p)`: the last characters of `s` are exactly `p`. This is
the vocabulary of the specification; the source tests the extension through
`path.extname` instead, and the two are compared in the theorems below. -/
def strEndsWith (s p : String) : Bool :=
  s.toList.drop (s.toList.length - p.toList.length) == p.toList

/-- The style file extension constant `scssExt` of the gulpfile. -/
def scssExt : String := ".scss"

/-- The suffix of `l` that begins at the last occurrence of a dot, or `[]`
when `l` has no dot. Helper for the model of Node `path.extname`. -/
def fromLastDot : List Char → List Char
  | [] => []
  | c :: rest =>
    match fromLastDot rest with
    | [] => if c = '.' then c :: rest else []
    | x :: xs => x :: xs

/-- Model of Node `path.extname` for slash-free names, as returned by
`fs.readdirSync`: the suffix from the last dot, except that a name whose only
dot is its first character has no extension, and the special name `..` has no
extension. -/
def extname (s : String) : String :=
  if s.toList = ['.', '.'] then ""
  else if fromLastDot s.toList = s.toList ∨ fromLastDot s.toList = [] then ""
  else String.mk (fromLastDot s.toList)

/-- The condition of the loop of `generateDesignFile`:
`file.startsWith('_') && path.extname(file) === scssExt`. -/
def isStyleImportFile (f : String) : Bool :=
  jsStartsWith f "_" && (extname f == scssExt)

/-- The `buildScssString` arrow function of the gulpfile:
`'@import "' + filename.slice(1, (filename.length-scssExt.length)) + '";\n'`. -/
def buildScssString (filename : String) : String :=
  "@import \"" ++
    jsSlice filename 1 ((filename.length : Int) - (scssExt.length : Int)) ++
    "\";\n"

/-- One iteration of the loop body of `generateDesignFile` over the
accumulated `content` and the current directory entry `file`. -/
def designStep (content : String) (file : String) : String :=
  if isStyleImportFile file then
    if file ≠ "_common.scss" then content ++ buildScssString file
    else buildScssString file ++ content
  else content

/-- The generated-file banner comment prepended by `generateDesignFile`. -/
def designBanner : String :=
  "/* \n * This file has been generated while building the components package. \n * PLEASE DO NOT MODIFY THIS FILE BY HAND. \n */\n"

/-- The content written to `components/styles/design.scss` by
`generateDesignFile`, as a function of the enumerated directory entries. -/
def generateDesignContent (files : List String) : String :=
  designBanner ++ files.foldl designStep ""

/-- The statically configured, order-significant `scriptFiles` list of the
gulpfile, root-relative (`path.join(__dirname, './scripts')` with the project
root as `__dirname`). -/
def scriptFiles : List String :=
  ["scripts/dpsHTMLGestureAPI.min.js",
   "scripts/jquery.js",
   "scripts/jquery.mobile.options.js",
   "scripts/jquery.mobile.js",
   "scripts/fullscreen.support.js",
   "scripts/jssor.js",
   "scripts/jssor.slider.js",
   "scripts/slideshow.js",
   "scripts/heroes.js",
   "scripts/video.js"]

/-- Result of `UglifyJS.minify`: `error` models `result.error.message` when
the minifier reports an error, `code` models `result.code`. -/
structure MinifyResult where
  error : Option String
  code : String

/-- Observable effects of the pipeline: file writes, log lines, and the
creation of a zip archive (destination directory, archive name, entries as
segment lists of root-relative paths). -/
inductive Effect where
  | write (path : String) (content : String)
  | log (msg : String)
  | zip (destDir : String) (archiveName : String) (entries : List (List String))
deriving DecidableEq, Repr

/-- Outcome of running a gulp task: the names of the invoked tasks, the
effects performed, and the thrown error message when the task failed. -/
structure TaskResult where
  invoked : List String
  effects : List Effect
  err : Option String
deriving DecidableEq, Repr

/-- The environment a pipeline run observes: the enumeration of the styles
directory, the file system contents, the behaviour of the external
collaborators (UglifyJS, sass, the components validator), the manifest name
and the enumerated component files handed to the zip step. -/
structure Env where
  stylesDirFiles : List String
  fileContents : String → String
  minify : String → MinifyResult
  sass : String → Except String String
  validatorResult : Bool
  validatorLogs : List String
  manifestName : String
  componentsFiles : List (List String)

/-- The concatenation loop of `generateVendorScript`:
`content += (await readFileAsync(scriptFiles[i])).toString() + '\n'`. -/
def vendorContent (env : Env) : String :=
  scriptFiles.foldl (fun acc p => acc ++ (env.fileContents p ++ "\n")) ""

/-- Run of `generateDesignFile`: writes the generated aggregate entry file to
`components/styles/design.scss` and never throws. -/
def generateDesignFileRun (env : Env) : TaskResult :=
  { invoked := ["generateDesignFile"],
    effects := [Effect.write "components/styles/design.scss"
      (generateDesignContent env.stylesDirFiles)],
    err := none }

/-- Run of `compileDesignFile`: first `generateDesignFile`, then the sass
compilation of the generated entry file. A compilation error is given to
`sass.logError`, which logs it and ends the stream, so the task itself never
throws; on success the compiled stylesheet is written next to the entry. -/
def compileDesignFileRun (env : Env) : TaskResult :=
  let gd := generateDesignFileRun env
  { invoked := "compileDesignFile" :: gd.invoked,
    effects := gd.effects ++
      (match env.sass (generateDesignContent env.stylesDirFiles) with
       | Except.error msg => [Effect.log msg]
       | Except.ok css => [Effect.write "components/styles/design.css" css]),
    err := none }

/-- Run of `generateVendorScript`: concatenates the configured scripts,
minifies the result, throws the minifier error message when minification
fails, and otherwise writes the minified code to the vendor script path. -/
def generateVendorScriptRun (env : Env) : TaskResult :=
  let result := env.minify (vendorContent env)
  match result.error with
  | some msg =>
      { invoked := ["generateVendorScript"], effects := [], err := some msg }
  | none =>
      { invoked := ["generateVendorScript"],
        effects := [Effect.write "components/scripts/vendor.js" result.code],
        err := none }

/-- Run of the bailing `validate` task: the validator logs its diagnostics,
and a `false` result makes the task throw. -/
def validateRun (env : Env) : TaskResult :=
  { invoked := ["validate"],
    effects := env.validatorLogs.map Effect.log,
    err := if env.validatorResult then none
           else some "Package failed validation. See errors above." }

/-- Run of the non-bailing `validateNoBail` task: the validator logs its
diagnostics and the returned result is discarded. -/
def validateNoBailRun (env : Env) : TaskResult :=
  { invoked := ["validateNoBail"],
    effects := env.validatorLogs.map Effect.log,
    err := none }

/-- Whether a path segment is hidden, i.e. its first character is a dot
(minimatch default `dot:false` refuses to match such segments). -/
def startsWithDot (s : String) : Bool :=
  match s.toList with
  | '.' :: _ => true
  | _ => false

/-- One segment of a glob pattern against one path segment: `*` matches any
nonempty segment that is not hidden (minimatch default `dot:false`); any
other literal segment matches only itself. -/
def segMatch (p q : String) : Bool :=
  if p = "*" then !(startsWithDot q) && !(q == "") else p == q

/-- Helper for `**`: tries the continuation `m` on every tail of the path,
where `**` may only skip segments that are not hidden. -/
def matchTails (m : List String → Bool) : List String → Bool
  | [] => m []
  | q :: qs => m (q :: qs) || (!(startsWithDot q) && matchTails m qs)

/-- Minimatch-style matching of a slash-split glob pattern against a
slash-split path, covering the pattern forms used by the gulpfile
(`components/**/*` and `components/**/tms-timestamp`). -/
def matchSegs : List String → List String → Bool
  | [], qs => qs.isEmpty
  | p :: ps, qs =>
    if p = "**" then matchTails (fun rest => matchSegs ps rest) qs
    else
      match qs with
      | [] => false
      | q :: qs' => segMatch p q && matchSegs ps qs'

/-- The entries selected by
`gulp.src(['components/**/*', '!components/**/tms-timestamp'])`. -/
def zipEntries (files : List (List String)) : List (List String) :=
  files.filter (fun p =>
    matchSegs ["components", "**", "*"] p &&
    !(matchSegs ["components", "**", "tms-timestamp"] p))

/-- Run of `buildComponentSetZip`: zips the selected component files into
`dist/<manifest name>.zip`. -/
def buildComponentSetZipRun (env : Env) : TaskResult :=
  { invoked := ["buildComponentSetZip"],
    effects := [Effect.zip "dist" (env.manifestName ++ ".zip")
      (zipEntries env.componentsFiles)],
    err := none }

/-- `gulp.series` of two tasks: the second runs only when the first did not
throw. -/
def seqR (a b : TaskResult) : TaskResult :=
  match a.err with
  | some _ => a
  | none =>
      { invoked := a.invoked ++ b.invoked,
        effects := a.effects ++ b.effects,
        err := b.err }

/-- `gulp.parallel` of two tasks: both are started; the combination fails
when either fails. -/
def parR (a b : TaskResult) : TaskResult :=
  { invoked := a.invoked ++ b.invoked,
    effects := a.effects ++ b.effects,
    err := match a.err with
           | some e => some e
           | none => b.err }

/-- The one-shot `build` pipeline:
`gulp.series(gulp.parallel(compileDesignFile, generateVendorScript), validate, buildComponentSetZip)`. -/
def buildRun (env : Env) : TaskResult :=
  seqR (seqR (parR (compileDesignFileRun env) (generateVendorScriptRun env))
    (validateRun env)) (buildComponentSetZipRun env)

/-- One watch-loop cycle: `gulp.watch` re-runs `gulp.series(validateNoBail)`
on every reported change batch. -/
def watchCycleRun (env : Env) : TaskResult :=
  validateNoBailRun env

/-- Discriminator for zip effects. -/
def isZipEffect : Effect → Bool
  | Effect.zip _ _ _ => true
  | _ => false

/-- The import lines of the generated design entry, in the order they occur
in the produced content: the lines of the common partial first, then the
lines of the remaining qualifying partials in enumeration order. -/
def designImportLines (files : List String) : List String :=
  (files.filter (fun f => isStyleImportFile f && f == "_common.scss")).map
      buildScssString ++
    (files.filter (fun f => isStyleImportFile f && !(f == "_common.scss"))).map
      buildScssString

/-- A base environment for concrete witnesses. -/
def baseEnv : Env :=
  { stylesDirFiles := [],
    fileContents := fun _ => "",
    minify := fun s => { error := none, code := s },
    sass := fun s => Except.ok s,
    validatorResult := true,
    validatorLogs := [],
    manifestName := "acme-widgets",
    componentsFiles := [] }

/-- Environment in which the minifier reports an error. -/
def envMinifyErr : Env :=
  { baseEnv with minify := fun _ => { error := some "unexpected token", code := "" } }

/-- Environment in which the sass compilation of the generated entry fails. -/
def envSassErr : Env :=
  { baseEnv with
      stylesDirFiles := ["_common.scss", "_card.scss"],
      sass := fun _ => Except.error "invalid property name" }

/-- Environment in which the validator rejects the component set. -/
def envInvalid : Env :=
  { baseEnv with validatorResult := false, validatorLogs := ["components.json malformed"] }

/-- Environment whose styles directory holds no qualifying partial. -/
def envNoStyles : Env :=
  { baseEnv with stylesDirFiles := ["common.scss", "_readme.txt", "design.scss"] }

/-- Two environments with the same styles enumeration but different file
contents and different sass behaviour. -/
def envContentsX : Env :=
  { baseEnv with
      stylesDirFiles := ["_common.scss", "_card.scss"],
      fileContents := fun _ => "AAA" }

/-- Counterpart of envContentsX differing only in data the style aggregation
never reads. -/
def envContentsY : Env :=
  { baseEnv with
      stylesDirFiles := ["_common.scss", "_card.scss"],
      fileContents := fun _ => "BBB",
      sass := fun _ => Except.error "boom" }

/-- Environment whose component folder holds a file inside a directory named
like the transient marker. -/
def envZipCex : Env :=
  { baseEnv with componentsFiles := [["components", "tms-timestamp", "x.js"]] }

/-- Environment with a typical component folder enumeration. -/
def envZipGood : Env :=
  { baseEnv with componentsFiles :=
      [["components", "styles", "design.scss"],
       ["components", "tms-timestamp"],
       ["components", "scripts", "vendor.js"],
       ["other", "file.js"]] }

/-! ### String helpers -/

theorem strJoin_append (l₁ l₂ : List String) :
    strJoin (l₁ ++ l₂) = strJoin l₁ ++ strJoin l₂ := by
  induction l₁ with
  | nil => simp [strJoin]
  | cons s t ih => simp [strJoin, ih, String.append_assoc]

theorem strJoin_replicate_comm (n : Nat) (s : String) :
    strJoin (List.replicate n s) ++ s = s ++ strJoin (List.replicate n s) := by
  induction n with
  | zero => simp [strJoin]
  | succ n ih =>
    simp only [List.replicate_succ, strJoin]
    rw [String.append_assoc, ih, ← String.append_assoc]

/-! ### Decomposition of the generateDesignFile accumulation loop -/

theorem designFold_eq (files : List String) (acc : String) :
    files.foldl designStep acc =
      strJoin (List.replicate
          (files.filter (fun f => isStyleImportFile f && f == "_common.scss")).length
          (buildScssString "_common.scss")) ++
        (acc ++ strJoin ((files.filter
          (fun f => isStyleImportFile f && !(f == "_common.scss"))).map
            buildScssString)) := by
  induction files generalizing acc with
  | nil => simp [strJoin]
  | cons f t ih =>
    by_cases hq : isStyleImportFile f = true
    · by_cases hc : f = "_common.scss"
      · subst hc
        have hq' : isStyleImportFile "_common.scss" = true := hq
        simp only [List.foldl_cons, designStep, hq', if_true, ne_eq,
          not_true_eq_false, if_false, List.filter_cons, beq_self_eq_true,
          Bool.and_true, Bool.not_true, Bool.and_false, ite_true, ite_false,
          List.length_cons, List.replicate_succ, strJoin]
        rw [ih]
        rw [String.append_assoc (buildScssString "_common.scss") acc,
          ← String.append_assoc (strJoin _), strJoin_replicate_comm,
          String.append_assoc]
        simp [String.append_assoc]
      · have hcb : (f == "_common.scss") = false := beq_eq_false_iff_ne.mpr hc
        simp only [List.foldl_cons, designStep, hq, if_true, ne_eq, hc,
          not_false_eq_true, ite_true, List.filter_cons, hcb, Bool.and_false,
          Bool.not_false, Bool.and_true, ite_false, ite_true, List.map_cons,
          strJoin]
        rw [ih, String.append_assoc]
        simp
    · have hq' : isStyleImportFile f = false := by
        simpa using hq
      simp only [List.foldl_cons, designStep, hq', Bool.false_eq_true,
        if_false, List.filter_cons, Bool.false_and, ite_false]
      exact ih acc

theorem generateDesignContent_eq (files : List String) :
    generateDesignContent files =
      designBanner ++
        (strJoin (List.replicate
            (files.filter (fun f => isStyleImportFile f && f == "_common.scss")).length
            (buildScssString "_common.scss")) ++
          strJoin ((files.filter
            (fun f => isStyleImportFile f && !(f == "_common.scss"))).map
              buildScssString)) := by
  simp [generateDesignContent, designFold_eq, String.empty_append]

/-- C1: whenever the common partial is among the enumerated style directory
entries, the aggregate content produced by generateDesignFile is the banner,
then the line for the common partial, then the lines of all other qualifying
partials in enumeration order. -/
theorem design_common_first (files : List String)
    (hmem : "_common.scss" ∈ files) (hnd : files.Nodup) :
    generateDesignContent files =
      designBanner ++ (buildScssString "_common.scss" ++
        strJoin ((files.filter
          (fun f => isStyleImportFile f && !(f == "_common.scss"))).map
            buildScssString)) := by
  have hfe : files.filter (fun f => isStyleImportFile f && f == "_common.scss")
      = files.filter (fun f => f == "_common.scss") := by
    apply List.filter_congr
    intro x _
    by_cases h : x = "_common.scss"
    · subst h
      rw [show isStyleImportFile "_common.scss" = true from by decide]
      simp
    · rw [beq_eq_false_iff_ne.mpr h]
      simp
  have hcnt : (files.filter (fun f => isStyleImportFile f && f == "_common.scss")).length = 1 := by
    rw [hfe]
    have h1 : files.count "_common.scss" = 1 :=
      List.count_eq_one_of_mem hnd hmem
    simpa [List.count, List.countP_eq_length_filter] using h1
  rw [generateDesignContent_eq, hcnt]
  simp [strJoin, String.append_empty]

/-- Closed witness for design_common_first on a concrete enumeration in which
the common partial is listed second. -/
theorem design_common_first_witness :
    generateDesignContent ["_hero.scss", "_common.scss", "readme.txt", "_card.scss"] =
      designBanner ++ (buildScssString "_common.scss" ++
        strJoin (((["_hero.scss", "_common.scss", "readme.txt", "_card.scss"] : List String).filter
          (fun f => isStyleImportFile f && !(f == "_common.scss"))).map
            buildScssString)) :=
  design_common_first _ (by decide) (by decide)

/-! ### Vendor script concatenation -/

theorem vendorFold_eq (env : Env) (l : List String) (acc : String) :
    l.foldl (fun acc p => acc ++ (env.fileContents p ++ "\n")) acc =
      acc ++ strJoin (l.map (fun p => env.fileContents p ++ "\n")) := by
  induction l generalizing acc with
  | nil => simp [strJoin]
  | cons p t ih => simp [strJoin, ih, String.append_assoc]

/-- C3: the concatenation built by generateVendorScript before minification
is exactly the configured scripts in configured list order, each script
content followed by a newline, with nothing in between. -/
theorem vendor_concat_order (env : Env) :
    vendorContent env =
      strJoin (scriptFiles.map (fun p => env.fileContents p ++ "\n")) := by
  have h := vendorFold_eq env scriptFiles ""
  simpa [vendorContent, String.empty_append] using h

/-! ### Characterisation of the extension test -/

theorem fromLastDot_eq_nil (l : List Char) (h : '.' ∉ l) : fromLastDot l = [] := by
  induction l with
  | nil => rfl
  | cons c rest ih =>
    have hc : ¬ c = '.' := fun e => h (by simp [e])
    have hr : fromLastDot rest = [] := ih (fun m => h (List.mem_cons_of_mem c m))
    simp [fromLastDot, hr, hc]

theorem fromLastDot_suffix (l : List Char) : ∃ pre, l = pre ++ fromLastDot l := by
  induction l with
  | nil => exact ⟨[], rfl⟩
  | cons c rest ih =>
    obtain ⟨pre, hp⟩ := ih
    cases hr : fromLastDot rest with
    | nil =>
      by_cases hc : c = '.'
      · exact ⟨[], by simp [fromLastDot, hr, hc]⟩
      · exact ⟨c :: rest, by simp [fromLastDot, hr, hc]⟩
    | cons x xs =>
      rw [hr] at hp
      refine ⟨c :: pre, ?_⟩
      simp only [fromLastDot, hr, List.cons_append, List.cons.injEq, true_and]
      exact hp

theorem fromLastDot_append (pre t : List Char) (h : '.' ∉ t) :
    fromLastDot (pre ++ '.' :: t) = '.' :: t := by
  induction pre with
  | nil => simp [fromLastDot, fromLastDot_eq_nil t h]
  | cons c pre ih => simp [fromLastDot, ih]

theorem jsStartsWith_underscore_iff (f : String) :
    jsStartsWith f "_" = true ↔ ∃ rest, f.toList = '_' :: rest := by
  unfold jsStartsWith
  rw [show ("_" : String).toList = ['_'] from rfl]
  cases hf : f.toList with
  | nil => simp
  | cons c t =>
    constructor
    · intro hb
      have hc : c = '_' := by simpa using hb
      exact ⟨t, by rw [hc]⟩
    · rintro ⟨rest, hr⟩
      injection hr with h1 h2
      subst h1
      simp

theorem strEndsWith_iff (f p : String) :
    strEndsWith f p = true ↔ ∃ pre, f.toList = pre ++ p.toList := by
  unfold strEndsWith
  rw [beq_iff_eq]
  constructor
  · intro h'
    have hsplit :=
      (List.take_append_drop (f.toList.length - p.toList.length) f.toList).symm
    rw [h'] at hsplit
    exact ⟨f.toList.take (f.toList.length - p.toList.length), hsplit⟩
  · rintro ⟨pre, hp⟩
    rw [hp, List.length_append, Nat.add_sub_cancel, List.drop_left]

theorem isStyleImportFile_iff (f : String) :
    isStyleImportFile f = true ↔
      (jsStartsWith f "_" = true ∧ strEndsWith f scssExt = true) := by
  unfold isStyleImportFile
  rw [Bool.and_eq_true]
  constructor
  · rintro ⟨hs, he⟩
    refine ⟨hs, ?_⟩
    have he' : extname f = scssExt := by simpa using he
    by_cases hdd : f.toList = ['.', '.']
    · rw [extname, if_pos hdd] at he'
      exact absurd he' (by decide)
    · rw [extname, if_neg hdd] at he'
      by_cases hz : fromLastDot f.toList = f.toList ∨ fromLastDot f.toList = []
      · rw [if_pos hz] at he'
        exact absurd he' (by decide)
      · rw [if_neg hz] at he'
        have hd : fromLastDot f.toList = scssExt.toList :=
          congrArg String.data he'
        obtain ⟨pre, hp⟩ := fromLastDot_suffix f.toList
        rw [hd] at hp
        exact (strEndsWith_iff f scssExt).mpr ⟨pre, hp⟩
  · rintro ⟨hs, he⟩
    refine ⟨hs, ?_⟩
    obtain ⟨rest, hr⟩ := (jsStartsWith_underscore_iff f).mp hs
    obtain ⟨pre, hp⟩ := (strEndsWith_iff f scssExt).mp he
    have hp' : f.toList = pre ++ '.' :: ['s', 's', 'c', 's', 's'].tail := by
      simpa [show (scssExt.toList : List Char) = '.' :: ['s', 'c', 's', 's'] from rfl]
        using hp
    have hfl : fromLastDot f.toList = '.' :: ['s', 'c', 's', 's'] := by
      rw [hp']
      exact fromLastDot_append pre _ (by decide)
    have hne : f.toList ≠ ['.', '.'] := by
      rw [hr]
      intro h
      injection h with h1 _
      exact absurd h1 (by decide)
    have hz : ¬ (fromLastDot f.toList = f.toList ∨ fromLastDot f.toList = []) := by
      rw [hfl, hr]
      rintro (h | h)
      · injection h with h1 _
        exact absurd h1 (by decide)
      · exact absurd h (by simp)
    rw [extname, if_neg hne, if_neg hz, hfl]
    decide

theorem buildScssString_strips (f : String) (mid : List Char)
    (h : f.toList = '_' :: (mid ++ scssExt.toList)) :
    buildScssString f = "@import \"" ++ String.mk mid ++ "\";\n" := by
  have h5 : scssExt.toList.length = 5 := rfl
  have hn : f.toList.length = mid.length + 6 := by
    rw [h, List.length_cons, List.length_append, h5]
  have hfl : f.length = f.toList.length := rfl
  have h5l : scssExt.length = 5 := rfl
  have hb : jsClampIdx f.toList.length 1 = 1 := by
    unfold jsClampIdx
    rw [if_neg (by omega)]
    omega
  have he : jsClampIdx f.toList.length ((f.length : Int) - (scssExt.length : Int)) =
      mid.length + 1 := by
    rw [hfl, hn, h5l]
    unfold jsClampIdx
    rw [if_neg (by push_cast; omega)]
    push_cast
    omega
  have hlist : ((('_' :: (mid ++ scssExt.toList)).take (mid.length + 1)).drop 1) = mid := by
    rw [List.take_succ_cons, List.take_left]
    rfl
  unfold buildScssString jsSlice
  rw [hb, he, h, hlist]

/-! ### The set of generated import lines -/

theorem commonFilter_map (files : List String) :
    (files.filter (fun f => isStyleImportFile f && f == "_common.scss")).map
        buildScssString =
      List.replicate
        (files.filter (fun f => isStyleImportFile f && f == "_common.scss")).length
        (buildScssString "_common.scss") := by
  induction files with
  | nil => rfl
  | cons a t ih =>
    by_cases h : (isStyleImportFile a && a == "_common.scss") = true
    · have ha : a = "_common.scss" := by
        have h2 := (Bool.and_eq_true _ _).mp h
        exact eq_of_beq h2.2
      subst ha
      simp only [List.filter_cons, h, ite_true, List.map_cons, ih,
        List.length_cons, List.replicate_succ]
    · have h' : (isStyleImportFile a && a == "_common.scss") = false := by
        simpa using h
      simp [List.filter_cons, h', ih]

theorem filter_split_perm (l : List String) (p q : String → Bool) :
    (l.filter (fun f => p f && q f) ++ l.filter (fun f => p f && !(q f))).Perm
      (l.filter p) := by
  induction l with
  | nil => simp
  | cons a t ih =>
    by_cases hp : p a = true
    · by_cases hq : q a = true
      · simp only [List.filter_cons, hp, hq, Bool.and_self, Bool.not_true,
          Bool.and_false, Bool.true_and, ite_true, ite_false, List.cons_append]
        exact ih.cons a
      · have hq' : q a = false := by simpa using hq
        simp only [List.filter_cons, hp, hq', Bool.and_false, Bool.not_false,
          Bool.true_and, Bool.and_true, ite_true, ite_false]
        exact List.perm_middle.trans (ih.cons a)
    · have hp' : p a = false := by simpa using hp
      simp only [List.filter_cons, hp', Bool.false_and, ite_false]
      exact ih

theorem styleFilter_congr (files : List String) :
    files.filter isStyleImportFile =
      files.filter (fun f => jsStartsWith f "_" && strEndsWith f scssExt) := by
  apply List.filter_congr
  intro x _
  by_cases h1 : isStyleImportFile x = true
  · rw [h1]
    symm
    rw [Bool.and_eq_true]
    exact (isStyleImportFile_iff x).mp h1
  · have h1' : isStyleImportFile x = false := by simpa using h1
    rw [h1']
    symm
    rw [Bool.eq_false_iff]
    intro hc
    rw [Bool.and_eq_true] at hc
    exact h1 ((isStyleImportFile_iff x).mpr hc)

/-- C2: the aggregate content is the banner followed by the generated import
lines, those lines are in bijection (as a permutation, hence as a
multiset) with the directory entries that start with an underscore and end
with the `.scss` extension, and each generated line references the entry
name with the leading underscore and the extension stripped. -/
theorem design_import_set (files : List String) :
    generateDesignContent files = designBanner ++ strJoin (designImportLines files)
      ∧ (designImportLines files).Perm
          ((files.filter (fun f => jsStartsWith f "_" && strEndsWith f scssExt)).map
            buildScssString)
      ∧ ∀ f mid, f.toList = '_' :: (mid ++ scssExt.toList) →
          buildScssString f = "@import \"" ++ String.mk mid ++ "\";\n" := by
  refine ⟨?_, ?_, fun f mid h => buildScssString_strips f mid h⟩
  · rw [generateDesignContent_eq, designImportLines, strJoin_append,
      commonFilter_map]
  · rw [designImportLines, ← List.map_append]
    have heq : (files.filter isStyleImportFile).map buildScssString =
        (files.filter (fun f => jsStartsWith f "_" && strEndsWith f scssExt)).map
          buildScssString := by
      rw [styleFilter_congr files]
    exact heq ▸ (filter_split_perm files isStyleImportFile
      (fun f => f == "_common.scss")).map buildScssString

/-- Closed witness for design_import_set on a concrete enumeration. -/
theorem design_import_set_witness :
    generateDesignContent ["_a.scss", "b.js"] =
        designBanner ++ strJoin (designImportLines ["_a.scss", "b.js"]) ∧
      buildScssString "_a.scss" = "@import \"" ++ String.mk ['a'] ++ "\";\n" :=
  ⟨(design_import_set ["_a.scss", "b.js"]).1,
   (design_import_set ["_a.scss", "b.js"]).2.2 "_a.scss" ['a'] (by decide)⟩

/-! ### Vendor script error path -/

/-- C4: when the minifier reports an error, generateVendorScript throws an
error carrying the minifier error message and performs no write at all, in
particular no write of the vendor output file. -/
theorem vendor_minify_error (env : Env) (msg : String)
    (h : (env.minify (vendorContent env)).error = some msg) :
    (generateVendorScriptRun env).err = some msg ∧
    (generateVendorScriptRun env).effects = [] := by
  simp only [generateVendorScriptRun]
  rw [h]
  exact ⟨rfl, rfl⟩

/-- Closed witness for vendor_minify_error on a concrete environment. -/
theorem vendor_minify_error_witness :
    (generateVendorScriptRun envMinifyErr).err = some "unexpected token" ∧
    (generateVendorScriptRun envMinifyErr).effects = [] :=
  vendor_minify_error envMinifyErr "unexpected token" rfl

/-! ### Build pipeline with a failing validation -/

/-- C5: in a one-shot build in which the parallel first stage succeeds and
the validator returns false, the bailing validate task throws the
user-facing message and the archive step is never invoked, so no zip
creation effect occurs in that run. -/
theorem build_fail_validation_skips_zip (env : Env)
    (hm : (env.minify (vendorContent env)).error = none)
    (hv : env.validatorResult = false) :
    (buildRun env).err = some "Package failed validation. See errors above." ∧
    "buildComponentSetZip" ∉ (buildRun env).invoked ∧
    (buildRun env).effects.all (fun e => !isZipEffect e) = true := by
  refine ⟨?_, ?_, ?_⟩
  · simp [buildRun, seqR, parR, compileDesignFileRun, generateDesignFileRun,
      generateVendorScriptRun, validateRun, buildComponentSetZipRun, hm, hv]
  · simp [buildRun, seqR, parR, compileDesignFileRun, generateDesignFileRun,
      generateVendorScriptRun, validateRun, buildComponentSetZipRun, hm, hv]
  · cases hs : env.sass (generateDesignContent env.stylesDirFiles) with
    | error msg =>
      simp [buildRun, seqR, parR, compileDesignFileRun, generateDesignFileRun,
        generateVendorScriptRun, validateRun, buildComponentSetZipRun, hm, hv,
        hs, List.all_map, isZipEffect]
    | ok css =>
      simp [buildRun, seqR, parR, compileDesignFileRun, generateDesignFileRun,
        generateVendorScriptRun, validateRun, buildComponentSetZipRun, hm, hv,
        hs, List.all_map, isZipEffect]

/-- Closed witness for build_fail_validation_skips_zip. -/
theorem build_fail_validation_skips_zip_witness :
    (buildRun envInvalid).err = some "Package failed validation. See errors above." ∧
    "buildComponentSetZip" ∉ (buildRun envInvalid).invoked ∧
    (buildRun envInvalid).effects.all (fun e => !isZipEffect e) = true :=
  build_fail_validation_skips_zip envInvalid rfl rfl

/-! ### Non-fatal sass errors -/

/-- C7: when the sass compilation of the generated entry file reports an
error, compileDesignFile logs it and does not throw, and the surrounding
build pipeline goes on to invoke the validate stage. -/
theorem compile_sass_error_nonfatal (env : Env) (msg : String)
    (hs : env.sass (generateDesignContent env.stylesDirFiles) = Except.error msg)
    (hm : (env.minify (vendorContent env)).error = none) :
    (compileDesignFileRun env).err = none ∧
    Effect.log msg ∈ (compileDesignFileRun env).effects ∧
    "validate" ∈ (buildRun env).invoked := by
  refine ⟨rfl, ?_, ?_⟩
  · simp [compileDesignFileRun, generateDesignFileRun, hs]
  · cases hvr : env.validatorResult with
    | true =>
      simp [buildRun, seqR, parR, compileDesignFileRun, generateDesignFileRun,
        generateVendorScriptRun, validateRun, buildComponentSetZipRun, hm, hs,
        hvr]
    | false =>
      simp [buildRun, seqR, parR, compileDesignFileRun, generateDesignFileRun,
        generateVendorScriptRun, validateRun, buildComponentSetZipRun, hm, hs,
        hvr]

/-- Closed witness for compile_sass_error_nonfatal. -/
theorem compile_sass_error_nonfatal_witness :
    (compileDesignFileRun envSassErr).err = none ∧
    Effect.log "invalid property name" ∈ (compileDesignFileRun envSassErr).effects ∧
    "validate" ∈ (buildRun envSassErr).invoked :=
  compile_sass_error_nonfatal envSassErr "invalid property name" rfl rfl

/-! ### Watch-mode validation ignores the result -/

/-- C8: the non-bailing validation used by the watch loop never throws and
its observable behaviour does not depend on the validator result: flipping
the result changes nothing, and the only effects are the validator log
lines. -/
theorem validateNoBail_result_ignored (env : Env) (b : Bool) :
    (validateNoBailRun env).err = none ∧
    validateNoBailRun { env with validatorResult := b } = validateNoBailRun env ∧
    (validateNoBailRun env).effects = env.validatorLogs.map Effect.log ∧
    watchCycleRun { env with validatorResult := b } = watchCycleRun env :=
  ⟨rfl, rfl, rfl, rfl⟩

/-! ### Aggregate with no qualifying partial -/

/-- C9: when no enumerated entry qualifies as a style partial,
generateDesignFile still writes the aggregate entry file and its content is
exactly the banner comment with zero import lines. -/
theorem design_no_qualifying_still_written (env : Env)
    (h : ∀ f ∈ env.stylesDirFiles, isStyleImportFile f = false) :
    (generateDesignFileRun env).effects =
      [Effect.write "components/styles/design.scss" designBanner] ∧
    (generateDesignFileRun env).err = none := by
  have h1 : env.stylesDirFiles.filter
      (fun f => isStyleImportFile f && f == "_common.scss") = [] := by
    rw [List.filter_eq_nil_iff]
    intro a ha
    simp [h a ha]
  have h2 : env.stylesDirFiles.filter
      (fun f => isStyleImportFile f && !(f == "_common.scss")) = [] := by
    rw [List.filter_eq_nil_iff]
    intro a ha
    simp [h a ha]
  have hc : generateDesignContent env.stylesDirFiles = designBanner := by
    rw [generateDesignContent_eq, h1, h2]
    simp [strJoin, String.append_empty]
  unfold generateDesignFileRun
  rw [hc]
  exact ⟨rfl, rfl⟩

/-- Closed witness for design_no_qualifying_still_written. -/
theorem design_no_qualifying_still_written_witness :
    (generateDesignFileRun envNoStyles).effects =
      [Effect.write "components/styles/design.scss" designBanner] ∧
    (generateDesignFileRun envNoStyles).err = none :=
  design_no_qualifying_still_written envNoStyles (by decide)

/-! ### The aggregate depends only on the enumerated names -/

/-- C10: the run of generateDesignFile, in particular the written aggregate
content, is a function of the enumerated file name sequence alone: two
environments with the same styles enumeration produce identical runs even
when every file content differs, since the partial files are never read. -/
theorem design_depends_only_on_names (e1 e2 : Env)
    (h : e1.stylesDirFiles = e2.stylesDirFiles) :
    generateDesignFileRun e1 = generateDesignFileRun e2 := by
  unfold generateDesignFileRun
  rw [h]

/-- Closed witness for design_depends_only_on_names: the two environments
differ in every file content and in the sass behaviour. -/
theorem design_depends_only_on_names_witness :
    generateDesignFileRun envContentsX = generateDesignFileRun envContentsY :=
  design_depends_only_on_names envContentsX envContentsY rfl

/-! ### Glob matching for the zip entries -/

theorem matchTails_nil (m : List String → Bool) : matchTails m [] = m [] := rfl

theorem matchTails_cons (m : List String → Bool) (q : String) (qs : List String) :
    matchTails m (q :: qs) =
      (m (q :: qs) || (!(startsWithDot q) && matchTails m qs)) := rfl

theorem matchSegs_nil_pat (qs : List String) : matchSegs [] qs = qs.isEmpty := rfl

theorem matchSegs_dstar (ps qs : List String) :
    matchSegs ("**" :: ps) qs = matchTails (fun rest => matchSegs ps rest) qs := by
  have h : matchSegs ("**" :: ps) qs =
      if ("**" : String) = "**" then matchTails (fun rest => matchSegs ps rest) qs
      else
        match qs with
        | [] => false
        | q :: qs' => segMatch "**" q && matchSegs ps qs' := rfl
  rw [h, if_pos rfl]

theorem matchSegs_plain_nil (p : String) (ps : List String) (hp : ¬ p = "**") :
    matchSegs (p :: ps) [] = false := by
  have h : matchSegs (p :: ps) [] =
      if p = "**" then matchTails (fun rest => matchSegs ps rest) [] else false := rfl
  rw [h, if_neg hp]

theorem matchSegs_plain_cons (p : String) (ps : List String) (hp : ¬ p = "**")
    (q : String) (qs' : List String) :
    matchSegs (p :: ps) (q :: qs') = (segMatch p q && matchSegs ps qs') := by
  have h : matchSegs (p :: ps) (q :: qs') =
      if p = "**" then matchTails (fun rest => matchSegs ps rest) (q :: qs')
      else segMatch p q && matchSegs ps qs' := rfl
  rw [h, if_neg hp]

theorem matchSegs_star_singleton (q : String) (hq1 : q ≠ "")
    (hq2 : startsWithDot q = false) : matchSegs ["*"] [q] = true := by
  rw [matchSegs_plain_cons "*" [] (by decide) q [], matchSegs_nil_pat]
  simp [segMatch, hq1, hq2]

theorem matchSegs_star_long (q r : String) (u : List String) :
    matchSegs ["*"] (q :: r :: u) = false := by
  rw [matchSegs_plain_cons "*" [] (by decide) q (r :: u), matchSegs_nil_pat]
  simp

theorem tails_star (qs : List String)
    (h : ∀ s ∈ qs, s ≠ "" ∧ startsWithDot s = false) :
    matchTails (fun rest => matchSegs ["*"] rest) qs = !qs.isEmpty := by
  induction qs with
  | nil => rfl
  | cons q t ih =>
    obtain ⟨hq1, hq2⟩ := h q (List.mem_cons_self q t)
    have ht := ih (fun s hs => h s (List.mem_cons_of_mem q hs))
    rw [matchTails_cons]
    cases t with
    | nil =>
      simp only [matchSegs_star_singleton q hq1 hq2, Bool.true_or]
      rfl
    | cons r u =>
      simp only [matchSegs_star_long q r u, hq2, ht, Bool.false_or,
        Bool.not_false, Bool.true_and]
      rfl

theorem matchSegs_marker_iff (qs : List String) :
    matchSegs ["tms-timestamp"] qs = true ↔ qs = ["tms-timestamp"] := by
  cases qs with
  | nil =>
    rw [matchSegs_plain_nil _ _ (by decide)]
    simp
  | cons q t =>
    rw [matchSegs_plain_cons _ _ (by decide), matchSegs_nil_pat]
    cases t with
    | nil =>
      simp [segMatch]
      exact eq_comm
    | cons r u => simp [segMatch]

theorem tails_lit (qs : List String)
    (h : ∀ s ∈ qs, s ≠ "" ∧ startsWithDot s = false) :
    (matchTails (fun rest => matchSegs ["tms-timestamp"] rest) qs = true ↔
      qs.getLast? = some "tms-timestamp") := by
  induction qs with
  | nil =>
    rw [matchTails_nil]
    rw [matchSegs_plain_nil _ _ (by decide)]
    simp
  | cons q t ih =>
    obtain ⟨hq1, hq2⟩ := h q (List.mem_cons_self q t)
    have ht := ih (fun s hs => h s (List.mem_cons_of_mem q hs))
    rw [matchTails_cons]
    cases t with
    | nil =>
      rw [matchTails_nil]
      rw [matchSegs_plain_nil _ _ (by decide)]
      simp only [Bool.and_false, Bool.or_false, matchSegs_marker_iff]
      simp
    | cons r u =>
      have hmk : matchSegs ["tms-timestamp"] (q :: r :: u) = false := by
        rw [matchSegs_plain_cons _ _ (by decide), matchSegs_nil_pat]
        simp
      rw [hmk, hq2, List.getLast?_cons_cons]
      simp only [Bool.false_or, Bool.not_false, Bool.true_and]
      exact ht

theorem include_match_iff (p : List String)
    (h : ∀ s ∈ p, s ≠ "" ∧ startsWithDot s = false) :
    (matchSegs ["components", "**", "*"] p = true ↔
      (p.head? = some "components" ∧ 2 ≤ p.length)) := by
  cases p with
  | nil =>
    rw [matchSegs_plain_nil _ _ (by decide)]
    simp
  | cons q t =>
    have ht := tails_star t (fun s hs => h s (List.mem_cons_of_mem q hs))
    rw [matchSegs_plain_cons _ _ (by decide), matchSegs_dstar, ht]
    simp only [segMatch, if_neg (show ¬ ("components" : String) = "*" by decide),
      Bool.and_eq_true, beq_iff_eq, Bool.not_eq_true', List.head?_cons,
      Option.some.injEq, List.length_cons]
    constructor
    · rintro ⟨h1, h2⟩
      refine ⟨h1.symm, ?_⟩
      cases t with
      | nil => simp at h2
      | cons r u => simp
    · rintro ⟨h1, h2⟩
      refine ⟨h1.symm, ?_⟩
      cases t with
      | nil => simp at h2
      | cons r u => rfl

theorem marker_match_iff (p : List String)
    (h : ∀ s ∈ p, s ≠ "" ∧ startsWithDot s = false) :
    (matchSegs ["components", "**", "tms-timestamp"] p = true ↔
      (p.head? = some "components" ∧ p.tail.getLast? = some "tms-timestamp")) := by
  cases p with
  | nil =>
    rw [matchSegs_plain_nil _ _ (by decide)]
    simp
  | cons q t =>
    have ht := tails_lit t (fun s hs => h s (List.mem_cons_of_mem q hs))
    rw [matchSegs_plain_cons _ _ (by decide), matchSegs_dstar]
    simp only [segMatch, if_neg (show ¬ ("components" : String) = "*" by decide),
      Bool.and_eq_true, beq_iff_eq, ht, List.head?_cons, Option.some.injEq,
      List.tail_cons]
    constructor
    · rintro ⟨h1, h2⟩
      exact ⟨h1.symm, h2⟩
    · rintro ⟨h1, h2⟩
      exact ⟨h1.symm, h2⟩

theorem tail_getLast_of_two (p : List String) (h : 2 ≤ p.length) :
    p.tail.getLast? = p.getLast? := by
  cases p with
  | nil => simp at h
  | cons q t =>
    cases t with
    | nil => simp at h
    | cons r u => simp [List.getLast?_cons_cons]

theorem zipEntries_eq (files : List (List String))
    (h : ∀ p ∈ files, ∀ s ∈ p, s ≠ "" ∧ startsWithDot s = false) :
    zipEntries files = files.filter (fun p =>
      decide (p.head? = some "components") && decide (2 ≤ p.length) &&
        !decide (p.getLast? = some "tms-timestamp")) := by
  unfold zipEntries
  apply List.filter_congr
  intro p hp
  have hseg := h p hp
  have hi := include_match_iff p hseg
  have hm := marker_match_iff p hseg
  rw [Bool.eq_iff_iff]
  simp only [Bool.and_eq_true, Bool.not_eq_true', Bool.not_eq_true,
    decide_eq_true_eq, ← Bool.not_eq_true (matchSegs _ p), hi, hm,
    decide_eq_false_iff_not]
  constructor
  · rintro ⟨⟨h1, h2⟩, h3⟩
    refine ⟨⟨h1, h2⟩, fun hl => h3 ⟨h1, ?_⟩⟩
    rw [tail_getLast_of_two p h2]
    exact hl
  · rintro ⟨⟨h1, h2⟩, h3⟩
    refine ⟨⟨h1, h2⟩, fun hc => h3 ?_⟩
    rw [← tail_getLast_of_two p h2]
    exact hc.2

/-- C6 counterexample: with the single component file
components/tms-timestamp/x.js, whose path contains the transient-marker name
as a directory segment, the archive step still produces a zip that contains
that entry, refuting the claim that every path containing the marker name is
excluded. -/
theorem zip_marker_dir_counterexample :
    (buildComponentSetZipRun envZipCex).effects =
      [Effect.zip "dist" "acme-widgets.zip" [["components", "tms-timestamp", "x.js"]]] ∧
    "tms-timestamp" ∈ (["components", "tms-timestamp", "x.js"] : List String) := by
  exact ⟨by decide, by decide⟩

/-- C6 (amended): for visible, well-formed component paths, the archive step
produces exactly one zip effect named after the manifest in the dist
directory, whose entries are exactly the paths under the components folder of
depth at least two whose final segment is not the transient-marker name. -/
theorem zip_one_archive_amended (env : Env)
    (h : ∀ p ∈ env.componentsFiles, ∀ s ∈ p, s ≠ "" ∧ startsWithDot s = false) :
    (buildComponentSetZipRun env).effects =
      [Effect.zip "dist" (env.manifestName ++ ".zip")
        (env.componentsFiles.filter (fun p =>
          decide (p.head? = some "components") && decide (2 ≤ p.length) &&
            !decide (p.getLast? = some "tms-timestamp")))] ∧
    (buildComponentSetZipRun env).err = none := by
  refine ⟨?_, rfl⟩
  unfold buildComponentSetZipRun
  rw [zipEntries_eq env.componentsFiles h]

/-- Closed witness for zip_one_archive_amended on a concrete enumeration with
a marker file, a nested style file, a vendor script and a file outside the
components folder. -/
theorem zip_one_archive_amended_witness :
    (buildComponentSetZipRun envZipGood).effects =
      [Effect.zip "dist" (envZipGood.manifestName ++ ".zip")
        (envZipGood.componentsFiles.filter (fun p =>
          decide (p.head? = some "components") && decide (2 ≤ p.length) &&
            !decide (p.getLast? = some "tms-timestamp")))] ∧
    (buildComponentSetZipRun envZipGood).err = none :=
  zip_one_archive_amended envZipGood (by decide)

end Gulpfile
